import Mathlib

/-!
Shallow embedding of the memory relevance and importance-scoring engine of
`src/utils/memory_manager.py` (functions `calculate_importance`,
`retrieve_relevant_memories`, `update_memory_importance`,
`cleanup_old_memories`, `analyze_conversation_emotions`).

Modelling conventions:

* Python floats are modelled exactly: scores, sentiments and importance
  values are rationals; values produced by `np.exp` and `np.sqrt` live in `ℝ`.
* A parsed ISO timestamp is modelled as a rational number of days since an
  arbitrary epoch (the fractional part is the time of day).  `datetime.now()`
  becomes an explicit argument `now : ℚ`.  Python's `(now - ts).days` floors
  the difference (also for negative differences), hence `Int.floor`.
* `extract_keywords` delegates to an external completion API (OpenAI); it is
  passed as an explicit function argument `kw : String → Finset String`,
  matching the spec's treatment of KeywordExtractor as an external capability.
* The `try/except` wrapper of `calculate_importance` is modelled with
  `Except`: the one fallible step inside the `try` block is
  `datetime.fromisoformat` on the context's `"timestamp"` entry, so that
  entry is modelled by `TsRead` (either a parsed value or a malformed raw
  string).  A missing entry defaults to `now` (the source defaults to
  `datetime.now().isoformat()`, which always parses).
* Python's `list.sort(key=..., reverse=True)` is a stable descending sort by
  the key; it is modelled by `List.mergeSort` with the relation
  "left score ≥ right score", which is stable in exactly the same sense.
* `set(emotions)` iteration order in `analyze_conversation_emotions` is
  modelled deterministically as first-occurrence order (`firstDedup`), and
  Python's `max(iterable, key=f)` (which keeps the first maximum) as `pyFold`.
-/

/-- Python `(now - ts).days`: floor of the difference measured in days. -/
def daysBetween (now ts : ℚ) : ℤ := ⌊now - ts⌋

/-- Outcome of reading the `"timestamp"` entry of a context dict:
either a value that `datetime.fromisoformat` parses, or a malformed string
on which it raises. -/
inductive TsRead where
  | parsed (t : ℚ)
  | malformed (raw : String)
  deriving DecidableEq

/-- The part of the Python context dict read by `calculate_importance`:
`context.get("timestamp", ...)` and `context.get("sentiment", 0)`.
`none` models an absent key. -/
structure ImportanceCtx where
  timestamp : Option TsRead
  sentiment : Option ℚ
  deriving DecidableEq

/-- `MemoryFragment` record from `memory_manager.py` (fields used by the
scoring, ranking, reinforcement and pruning functions).  The timestamp is
stored in parsed form (all claims below concern parseable fragment
timestamps). -/
structure MemoryFragment where
  content : String
  timestamp : ℚ
  emotion : Option String
  importance : ℚ
  context : ImportanceCtx
  references : Finset String
  deriving DecidableEq

/-- Python `min(1.0, max(0.0, x))` on rationals. -/
def clamp01Q (x : ℚ) : ℚ := min 1 (max 0 x)

/-- Python `min(1.0, max(0.0, x))` on reals. -/
def clamp01R (x : ℝ) : ℝ := min 1 (max 0 x)

/-- `update_memory_importance` (memory_manager.py lines 525-558): reinforce a
fragment's importance from interaction count and emotional impact. -/
def update_memory_importance (memory : MemoryFragment) (interaction_count : ℤ)
    (emotional_impact : ℚ) : MemoryFragment :=
  let base_importance := memory.importance
  let interaction_factor : ℚ := min ((interaction_count : ℚ) / 10) 1
  let emotion_factor : ℚ := min |emotional_impact| 1
  let new_importance := base_importance * 0.5 + interaction_factor * 0.2 + emotion_factor * 0.3
  { memory with importance := clamp01Q new_importance }

/-- `cleanup_old_memories` (memory_manager.py lines 564-597): keep a fragment
when it is recent enough or important enough. -/
def cleanup_old_memories (now : ℚ) (memories : List MemoryFragment)
    (max_age_days : ℤ) (min_importance : ℚ) : List MemoryFragment :=
  memories.filter fun memory =>
    decide (daysBetween now memory.timestamp ≤ max_age_days)
      || decide (min_importance ≤ memory.importance)

/-- Does `pat` occur at the head of `l`? (building block for Python's
substring test `word in content`). -/
def leadsWith : List Char → List Char → Bool
  | [], _ => true
  | _ :: _, [] => false
  | a :: as, b :: bs => a == b && leadsWith as bs

/-- Does `pat` occur anywhere in `l`? -/
def occursAnywhere (pat : List Char) : List Char → Bool
  | [] => pat.isEmpty
  | b :: bs => leadsWith pat (b :: bs) || occursAnywhere pat bs

/-- Python `pat in hay` on strings (substring containment). -/
def strContainsSub (hay pat : String) : Bool := occursAnywhere pat.data hay.data

/-- The fixed high-salience keyword set of `calculate_importance`. -/
def important_keywords : List String :=
  ["第一次", "生病", "手术", "事故", "成长", "里程碑", "变化", "异常", "重要", "特殊"]

/-- `sum(1 for word in important_keywords if word in content)`. -/
def keywordMatches (content : String) : ℕ :=
  (important_keywords.filter fun w => strContainsSub content w).length

/-- The score accumulated by `calculate_importance` before the time-decay
multiplication: base 0.5, plus `abs(sentiment) * 0.2` when an emotion is
present, plus `0.1` per matched salience keyword. -/
def preDecayScore (content : String) (ctx : ImportanceCtx) (emotion : Option String) : ℚ :=
  let base : ℚ := 0.5
  let withEmotion : ℚ := if emotion.isSome then base + |ctx.sentiment.getD 0| * 0.2 else base
  withEmotion + (keywordMatches content : ℚ) * 0.1

/-- `np.exp(-days_passed / 365)`. -/
noncomputable def decayFactor (days_passed : ℤ) : ℝ :=
  Real.exp (-(days_passed : ℝ) / 365)

/-- Body of the `try` block of `calculate_importance` (memory_manager.py
lines 144-188); the only fallible step is parsing the context timestamp. -/
noncomputable def calc_importance_checked (now : ℚ) (content : String)
    (ctx : ImportanceCtx) (emotion : Option String) : Except Unit ℝ :=
  match ctx.timestamp.getD (.parsed now) with
  | .malformed _ => .error ()
  | .parsed t =>
      .ok (clamp01R ((preDecayScore content ctx emotion : ℝ) * decayFactor (daysBetween now t)))

/-- `calculate_importance` with its `except` fallback of `0.5`. -/
noncomputable def calculate_importance (now : ℚ) (content : String)
    (ctx : ImportanceCtx) (emotion : Option String) : ℝ :=
  match calc_importance_checked now content ctx emotion with
  | .ok v => v
  | .error _ => 0.5

/-- `keyword_score` of `retrieve_relevant_memories`:
`len(query_keywords & memory_keywords) / max(len(query_keywords), 1)`. -/
def keyword_score (kw : String → Finset String) (query content : String) : ℚ :=
  ((kw query ∩ kw content).card : ℚ) / ((max (kw query).card 1 : ℕ) : ℚ)

/-- `time_score` of `retrieve_relevant_memories`: `np.exp(-days_passed / 365)`
for the fragment's age in whole days. -/
noncomputable def time_score (now ts : ℚ) : ℝ := decayFactor (daysBetween now ts)

/-- `final_score` of `retrieve_relevant_memories`:
`keyword_score * 0.4 + time_score * 0.3 + importance * 0.3`. -/
noncomputable def final_score (kw : String → Finset String) (now : ℚ) (query : String)
    (memory : MemoryFragment) : ℝ :=
  (keyword_score kw query memory.content : ℝ) * 0.4
    + time_score now memory.timestamp * 0.3
    + (memory.importance : ℝ) * 0.3

/-- Comparison used by the descending stable sort
`scored_memories.sort(key=lambda x: x[1], reverse=True)`. -/
noncomputable def scoreDescBool (a b : MemoryFragment × ℝ) : Bool :=
  @decide (b.2 ≤ a.2) (Classical.propDecidable _)

/-- The `scored_memories` list built by `retrieve_relevant_memories`. -/
noncomputable def scored_memories (kw : String → Finset String) (now : ℚ) (query : String)
    (memories : List MemoryFragment) : List (MemoryFragment × ℝ) :=
  memories.map fun m => (m, final_score kw now query m)

/-- `scored_memories` after the stable descending sort by score. -/
noncomputable def ranked_memories (kw : String → Finset String) (now : ℚ) (query : String)
    (memories : List MemoryFragment) : List (MemoryFragment × ℝ) :=
  (scored_memories kw now query memories).mergeSort scoreDescBool

/-- `retrieve_relevant_memories` (memory_manager.py lines 428-479): score,
sort descending, truncate to `top_k`, drop the scores. -/
noncomputable def retrieve_relevant_memories (kw : String → Finset String) (now : ℚ)
    (query : String) (memories : List MemoryFragment) (top_k : ℕ) : List MemoryFragment :=
  ((ranked_memories kw now query memories).take top_k).map Prod.fst

/-- A chat message as read by `analyze_conversation_emotions`: optional
`"emotion"` and `"sentiment"` entries (`none` models an absent key). -/
structure ChatMsg where
  emotion : Option String
  sentiment : Option ℚ
  deriving DecidableEq

/-- The emotion tags collected by the message loop, in message order. -/
def msgEmotions (messages : List ChatMsg) : List String :=
  messages.filterMap ChatMsg.emotion

/-- The sentiment values collected by the message loop, in message order. -/
def msgSentiments (messages : List ChatMsg) : List ℚ :=
  messages.filterMap ChatMsg.sentiment

/-- `set(emotions)` with iteration order modelled deterministically as
first-occurrence order. -/
def firstDedup : List String → List String
  | [] => []
  | x :: xs => x :: firstDedup (xs.filter fun y => y != x)
termination_by l => l.length
decreasing_by
  exact Nat.lt_succ_of_le (List.length_filter_le _ _)

/-- The fold performed by Python `max(iterable, key=f)`: the running best is
replaced only on a strictly larger key, so the first maximum wins. -/
def pyFold (f : String → ℕ) : String → List String → String
  | best, [] => best
  | best, x :: xs => pyFold f (if f best < f x then x else best) xs

/-- Python `max(l, key=f)` for a nonempty list (`none` on the empty list,
which the source never reaches thanks to its emptiness guard). -/
def pyMaxKey (f : String → ℕ) : List String → Option String
  | [] => none
  | x :: xs => some (pyFold f x xs)

/-- `sum(l) / len(l)`. -/
def listMean (l : List ℚ) : ℚ := l.sum / l.length

/-- Population variance, as inside `np.std`: mean of squared deviations. -/
def popVariance (l : List ℚ) : ℚ :=
  (l.map fun x => (x - listMean l) ^ 2).sum / l.length

/-- Concrete fragment with importance `0.4`, used to instantiate theorems. -/
def fragEx : MemoryFragment :=
  { content := "", timestamp := 0, emotion := none, importance := 2/5,
    context := { timestamp := none, sentiment := none }, references := ∅ }

/-- Keyword extractor returning no keywords (the source's `extract_keywords`
fallback when the completion API fails). -/
def kwNone : String → Finset String := fun _ => ∅

/-- A fragment three hours old (timestamps measured in days; `now = 1/2`). -/
def fragOld : MemoryFragment :=
  { content := "", timestamp := 1/8, emotion := none, importance := 1/2,
    context := { timestamp := none, sentiment := none }, references := ∅ }

/-- The same fragment created three hours after `fragOld`; both ages floor to
zero whole days, so both receive the same `time_score`. -/
def fragNew : MemoryFragment := { fragOld with timestamp := 1/4 }

/-- Concrete message window used to instantiate the emotion-summary
theorem: "happy" observed twice, "sad" once, two sentiment values. -/
def msgsEx : List ChatMsg :=
  [{ emotion := some "happy", sentiment := some (1/2) },
   { emotion := some "sad", sentiment := some (-(1/4)) },
   { emotion := some "happy", sentiment := none }]

/-- Result record of `analyze_conversation_emotions`. -/
structure EmotionStats where
  mainEmotion : Option String
  avgSentiment : ℚ
  emotionCounts : List (String × ℕ)
  sentimentRange : ℚ × ℚ
  sentimentStd : ℝ

/-- `analyze_conversation_emotions` (memory_manager.py lines 266-306). -/
noncomputable def analyze_conversation_emotions (messages : List ChatMsg) : EmotionStats :=
  let emotions := msgEmotions messages
  let sentiments := msgSentiments messages
  { mainEmotion :=
      if emotions.isEmpty then none
      else pyMaxKey (fun e => emotions.count e) (firstDedup emotions),
    avgSentiment := if sentiments.isEmpty then 0 else listMean sentiments,
    emotionCounts := (firstDedup emotions).map fun e => (e, emotions.count e),
    sentimentRange :=
      match sentiments with
      | [] => (0, 0)
      | s :: rest => (rest.foldl min s, rest.foldl max s),
    sentimentStd :=
      if sentiments.isEmpty then 0 else Real.sqrt ((popVariance sentiments : ℚ) : ℝ) }

/-! ## Theorems -/

theorem clamp01Q_mono {x y : ℚ} (h : x ≤ y) : clamp01Q x ≤ clamp01Q y :=
  min_le_min le_rfl (max_le_max le_rfl h)

/-- C3: `update_memory_importance` sets the new importance to
`old_importance * 0.5 + min(interaction_count/10, 1) * 0.2 +
min(|emotional_impact|, 1) * 0.3`, clamped to `[0, 1]`. -/
theorem update_memory_importance_formula (memory : MemoryFragment)
    (interaction_count : ℤ) (emotional_impact : ℚ)
    (h0 : 0 ≤ memory.importance) (h1 : memory.importance ≤ 1) :
    (update_memory_importance memory interaction_count emotional_impact).importance
      = min 1 (max 0 (memory.importance * 0.5
          + min ((interaction_count : ℚ) / 10) 1 * 0.2
          + min |emotional_impact| 1 * 0.3)) := rfl

/-- Witness for C3, realising the spec's worked example:
`reinforce(importance 0.4, interaction_count 10, emotional_impact 0.9) = 0.67`. -/
theorem update_memory_importance_formula_witness :
    (0 : ℚ) ≤ fragEx.importance ∧ fragEx.importance ≤ 1
      ∧ (update_memory_importance fragEx 10 (9/10)).importance = 67/100 := by
  refine ⟨by norm_num [fragEx], by norm_num [fragEx], ?_⟩
  rw [update_memory_importance_formula fragEx 10 (9/10) (by norm_num [fragEx])
    (by norm_num [fragEx])]
  have habs : |(9/10 : ℚ)| = 9/10 := abs_of_nonneg (by norm_num)
  norm_num [fragEx, habs, min_def, max_def]

/-- C7: the reinforced importance is non-decreasing in `interaction_count`
(for fixed impact) and non-decreasing in `|emotional_impact|` (for fixed
interaction count). -/
theorem update_memory_importance_monotone :
    (∀ (m : MemoryFragment) (ic1 ic2 : ℤ) (ei : ℚ), ic1 ≤ ic2 →
      (update_memory_importance m ic1 ei).importance
        ≤ (update_memory_importance m ic2 ei).importance)
    ∧ ∀ (m : MemoryFragment) (ic : ℤ) (ei1 ei2 : ℚ), |ei1| ≤ |ei2| →
      (update_memory_importance m ic ei1).importance
        ≤ (update_memory_importance m ic ei2).importance := by
  constructor
  · intro m ic1 ic2 ei h
    simp only [update_memory_importance]
    apply clamp01Q_mono
    have hq : (ic1 : ℚ) / 10 ≤ (ic2 : ℚ) / 10 := by
      apply div_le_div_of_nonneg_right _ (by norm_num)
      exact_mod_cast h
    exact add_le_add
      (add_le_add le_rfl (mul_le_mul_of_nonneg_right (min_le_min hq le_rfl) (by norm_num)))
      le_rfl
  · intro m ic ei1 ei2 h
    simp only [update_memory_importance]
    apply clamp01Q_mono
    exact add_le_add le_rfl (mul_le_mul_of_nonneg_right (min_le_min h le_rfl) (by norm_num))

/-- Witness for C7 at concrete interaction counts and impacts. -/
theorem update_memory_importance_monotone_witness :
    ((1 : ℤ) ≤ 2
      ∧ (update_memory_importance fragEx 1 0).importance
          ≤ (update_memory_importance fragEx 2 0).importance)
    ∧ |(0 : ℚ)| ≤ |(1 : ℚ)|
      ∧ (update_memory_importance fragEx 3 0).importance
          ≤ (update_memory_importance fragEx 3 1).importance :=
  ⟨⟨by norm_num, update_memory_importance_monotone.1 fragEx 1 2 0 (by norm_num)⟩,
   by norm_num, update_memory_importance_monotone.2 fragEx 3 0 1 (by simp)⟩

/-- C10: reinforcement returns a fragment agreeing with the input on every
field except `importance`; the model is purely functional, so the input
record itself is unchanged. -/
theorem update_memory_importance_frame (m : MemoryFragment) (ic : ℤ) (ei : ℚ) :
    (update_memory_importance m ic ei).content = m.content
    ∧ (update_memory_importance m ic ei).timestamp = m.timestamp
    ∧ (update_memory_importance m ic ei).emotion = m.emotion
    ∧ (update_memory_importance m ic ei).context = m.context
    ∧ (update_memory_importance m ic ei).references = m.references :=
  ⟨rfl, rfl, rfl, rfl, rfl⟩

/-- C2: pruning retains exactly the fragments that are recent enough
(`age_days ≤ max_age_days`) or important enough
(`importance ≥ min_importance`), as an unmodified subsequence of the input. -/
theorem cleanup_old_memories_spec (now : ℚ) (memories : List MemoryFragment)
    (max_age_days : ℤ) (min_importance : ℚ) :
    (cleanup_old_memories now memories max_age_days min_importance).Sublist memories
    ∧ ∀ m : MemoryFragment,
        m ∈ cleanup_old_memories now memories max_age_days min_importance
          ↔ m ∈ memories
            ∧ (daysBetween now m.timestamp ≤ max_age_days
                ∨ min_importance ≤ m.importance) := by
  constructor
  · exact List.filter_sublist _
  · intro m
    simp [cleanup_old_memories, List.mem_filter]

theorem clamp01R_nonneg (x : ℝ) : 0 ≤ clamp01R x :=
  le_min (by norm_num) (le_max_left 0 x)

theorem clamp01R_le_one (x : ℝ) : clamp01R x ≤ 1 := min_le_left _ _

theorem clamp01R_mono {x y : ℝ} (h : x ≤ y) : clamp01R x ≤ clamp01R y :=
  min_le_min le_rfl (max_le_max le_rfl h)

theorem preDecayScore_nonneg (content : String) (ctx : ImportanceCtx)
    (emotion : Option String) : 0 ≤ preDecayScore content ctx emotion := by
  rcases emotion with _ | e <;> simp [preDecayScore] <;> positivity

/-- C4: the importance score lies in `[0, 1]`, on the normal (clamped) path
and on the fallback (`0.5`) path alike. -/
theorem calculate_importance_bounds (now : ℚ) (content : String)
    (ctx : ImportanceCtx) (emotion : Option String) :
    0 ≤ calculate_importance now content ctx emotion
    ∧ calculate_importance now content ctx emotion ≤ 1 := by
  rcases h : ctx.timestamp.getD (TsRead.parsed now) with t | raw <;>
    simp only [calculate_importance, calc_importance_checked, h]
  · exact ⟨clamp01R_nonneg _, clamp01R_le_one _⟩
  · norm_num

/-- C6: whenever the body of the `try` block fails, `calculate_importance`
returns exactly the fallback score `0.5`; being a total function, the
embedding propagates no exception. -/
theorem calculate_importance_fallback (now : ℚ) (content : String)
    (ctx : ImportanceCtx) (emotion : Option String) (u : Unit)
    (h : calc_importance_checked now content ctx emotion = .error u) :
    calculate_importance now content ctx emotion = 0.5 := by
  unfold calculate_importance
  rw [h]

/-- Witness for C6: an unparseable context timestamp yields `0.5`. -/
theorem calculate_importance_fallback_witness :
    calc_importance_checked 0 "" ⟨some (.malformed "not a timestamp"), none⟩ none = .error ()
    ∧ calculate_importance 0 "" ⟨some (.malformed "not a timestamp"), none⟩ none = 0.5 :=
  ⟨rfl, calculate_importance_fallback 0 "" _ none () rfl⟩

/-- C8: with content, emotion and sentiment fixed, the importance score is
non-increasing in the number of days elapsed since the context timestamp. -/
theorem calculate_importance_decay_antitone (now : ℚ) (content : String)
    (senti : Option ℚ) (emotion : Option String) (t1 t2 : ℚ)
    (h : daysBetween now t1 ≤ daysBetween now t2) :
    calculate_importance now content ⟨some (.parsed t2), senti⟩ emotion
      ≤ calculate_importance now content ⟨some (.parsed t1), senti⟩ emotion := by
  simp only [calculate_importance, calc_importance_checked, Option.getD_some]
  have hA : preDecayScore content ⟨some (.parsed t2), senti⟩ emotion
      = preDecayScore content ⟨some (.parsed t1), senti⟩ emotion := rfl
  rw [hA]
  apply clamp01R_mono
  apply mul_le_mul_of_nonneg_left _ (by exact_mod_cast preDecayScore_nonneg content _ emotion)
  unfold decayFactor
  apply Real.exp_le_exp.mpr
  have hc : ((daysBetween now t1 : ℤ) : ℝ) ≤ ((daysBetween now t2 : ℤ) : ℝ) := by
    exact_mod_cast h
  linarith

/-- Witness for C8 at concrete timestamps zero and one day earlier. -/
theorem calculate_importance_decay_antitone_witness :
    daysBetween (0 : ℚ) (0 : ℚ) ≤ daysBetween (0 : ℚ) (-1 : ℚ)
    ∧ calculate_importance 0 "" ⟨some (.parsed (-1)), none⟩ none
        ≤ calculate_importance 0 "" ⟨some (.parsed 0), none⟩ none :=
  ⟨by norm_num [daysBetween],
   calculate_importance_decay_antitone 0 "" none none 0 (-1) (by norm_num [daysBetween])⟩

theorem scoreDescBool_trans : ∀ a b c : MemoryFragment × ℝ,
    scoreDescBool a b → scoreDescBool b c → scoreDescBool a c := by
  intro a b c hab hbc
  simp only [scoreDescBool, decide_eq_true_eq] at hab hbc ⊢
  exact le_trans hbc hab

theorem scoreDescBool_total : ∀ a b : MemoryFragment × ℝ,
    scoreDescBool a b || scoreDescBool b a := by
  intro a b
  simp only [scoreDescBool, Bool.or_eq_true, decide_eq_true_eq]
  exact le_total b.2 a.2

theorem ranked_memories_snd (kw : String → Finset String) (now : ℚ) (query : String)
    (memories : List MemoryFragment) :
    ∀ p ∈ ranked_memories kw now query memories, p.2 = final_score kw now query p.1 := by
  intro p hp
  simp only [ranked_memories, List.mem_mergeSort, scored_memories, List.mem_map] at hp
  obtain ⟨m, _, rfl⟩ := hp
  rfl

/-- C1: retrieval returns exactly `min(top_k, number of candidates)`
fragments, in weakly descending `final_score` order, where `final_score` is
`0.4 * keyword_score + 0.3 * time_score + 0.3 * importance`. -/
theorem retrieve_relevant_memories_spec (kw : String → Finset String) (now : ℚ)
    (query : String) (memories : List MemoryFragment) (top_k : ℕ) :
    (retrieve_relevant_memories kw now query memories top_k).length
        = min top_k memories.length
    ∧ (retrieve_relevant_memories kw now query memories top_k).Pairwise
        (fun a b => final_score kw now query b ≤ final_score kw now query a)
    ∧ ∀ m : MemoryFragment, final_score kw now query m
        = 0.4 * (keyword_score kw query m.content : ℝ)
          + 0.3 * time_score now m.timestamp + 0.3 * (m.importance : ℝ) := by
  refine ⟨?_, ?_, ?_⟩
  · simp [retrieve_relevant_memories, ranked_memories, scored_memories]
  · have hs := List.sorted_mergeSort scoreDescBool_trans scoreDescBool_total
      (scored_memories kw now query memories)
    have hs2 : (ranked_memories kw now query memories).Pairwise
        (fun a b => final_score kw now query b.1 ≤ final_score kw now query a.1) := by
      refine hs.imp_of_mem ?_
      intro a b ha hb hab
      have ha2 := ranked_memories_snd kw now query memories a ha
      have hb2 := ranked_memories_snd kw now query memories b hb
      simp only [scoreDescBool, decide_eq_true_eq] at hab
      rw [ha2, hb2] at hab
      exact hab
    have hs3 := hs2.sublist (List.take_sublist top_k _)
    rw [retrieve_relevant_memories, List.pairwise_map]
    exact hs3
  · intro m
    rw [final_score]
    ring

/-- Stability of the ranking: a pair of candidates with equal scores keeps
its input order through the descending sort. -/
theorem ranked_memories_tie_stable (kw : String → Finset String) (now : ℚ) (query : String)
    (memories : List MemoryFragment) (a b : MemoryFragment)
    (hsub : [a, b].Sublist memories)
    (heq : final_score kw now query a = final_score kw now query b) :
    [a, b].Sublist ((ranked_memories kw now query memories).map Prod.fst) := by
  have h1 : [(a, final_score kw now query a), (b, final_score kw now query b)].Sublist
      (scored_memories kw now query memories) := by
    have hm := hsub.map (fun m => (m, final_score kw now query m))
    simpa [scored_memories] using hm
  have hab : scoreDescBool (a, final_score kw now query a) (b, final_score kw now query b) := by
    simp [scoreDescBool, heq]
  have h2 := List.pair_sublist_mergeSort scoreDescBool_trans scoreDescBool_total hab h1
  have h3 := h2.map Prod.fst
  simpa [ranked_memories] using h3

/-- C5 (amended): two candidates with equal `final_score` appear in the
ranking in their original input order (the sort is stable and consults only
the score, never the timestamp); with `top_k` = number of candidates, the
retrieval output is exactly that ranking. -/
theorem retrieve_tie_input_order (kw : String → Finset String) (now : ℚ) (query : String)
    (memories : List MemoryFragment) (a b : MemoryFragment)
    (hsub : [a, b].Sublist memories)
    (heq : final_score kw now query a = final_score kw now query b) :
    [a, b].Sublist ((ranked_memories kw now query memories).map Prod.fst)
    ∧ retrieve_relevant_memories kw now query memories memories.length
        = (ranked_memories kw now query memories).map Prod.fst := by
  refine ⟨ranked_memories_tie_stable kw now query memories a b hsub heq, ?_⟩
  rw [retrieve_relevant_memories,
    List.take_of_length_le (by simp [ranked_memories, scored_memories])]

theorem fragTie_score_eq :
    final_score kwNone (1/2) "" fragOld = final_score kwNone (1/2) "" fragNew := by
  simp only [final_score, fragOld, fragNew, time_score]
  have hd : daysBetween (1/2 : ℚ) (1/8 : ℚ) = daysBetween (1/2 : ℚ) (1/4 : ℚ) := by
    norm_num [daysBetween]
  rw [hd]

/-- Counterexample to C5 as stated: `fragOld` and `fragNew` have equal
`final_score` (their ages, three and six hours, floor to the same whole-day
count), yet retrieval returns the OLDER fragment first, because Python's
stable sort keeps the input order on ties and never consults timestamps. -/
theorem retrieve_tie_not_recency_first :
    fragOld.timestamp < fragNew.timestamp
    ∧ final_score kwNone (1/2) "" fragOld = final_score kwNone (1/2) "" fragNew
    ∧ retrieve_relevant_memories kwNone (1/2) "" [fragOld, fragNew] 2
        = [fragOld, fragNew] := by
  refine ⟨by norm_num [fragOld, fragNew], fragTie_score_eq, ?_⟩
  have hst := ranked_memories_tie_stable kwNone (1/2) "" [fragOld, fragNew] fragOld fragNew
    (List.Sublist.refl _) fragTie_score_eq
  have heq2 := hst.eq_of_length (by simp [ranked_memories, scored_memories])
  rw [retrieve_relevant_memories,
    List.take_of_length_le (by simp [ranked_memories, scored_memories])]
  exact heq2.symm

/-- Witness for the amended C5 at the concrete tied pair. -/
theorem retrieve_tie_input_order_witness :
    [fragOld, fragNew].Sublist [fragOld, fragNew]
    ∧ final_score kwNone (1/2) "" fragOld = final_score kwNone (1/2) "" fragNew
    ∧ [fragOld, fragNew].Sublist
        ((ranked_memories kwNone (1/2) "" [fragOld, fragNew]).map Prod.fst) :=
  ⟨List.Sublist.refl _, fragTie_score_eq,
   (retrieve_tie_input_order kwNone (1/2) "" [fragOld, fragNew] fragOld fragNew
      (List.Sublist.refl _) fragTie_score_eq).1⟩

theorem mem_firstDedup (x : String) : ∀ l : List String, x ∈ firstDedup l ↔ x ∈ l := by
  intro l
  induction l using firstDedup.induct with
  | case1 => simp [firstDedup]
  | case2 y ys ih =>
    have hfd : firstDedup (y :: ys) = y :: firstDedup (ys.filter fun z => z != y) := by
      simp only [firstDedup]
    rw [hfd]
    by_cases hxy : x = y
    · subst hxy; simp
    · simp only [List.mem_cons, ih, List.mem_filter, bne_iff_ne, ne_eq]
      constructor
      · rintro (rfl | ⟨hmem, _⟩)
        · exact Or.inl rfl
        · exact Or.inr hmem
      · rintro (rfl | hmem)
        · exact Or.inl rfl
        · exact Or.inr ⟨hmem, hxy⟩

theorem pyFold_split (f : String → ℕ) :
    ∀ (l : List String) (best : String),
    ∃ l₁ l₂, best :: l = l₁ ++ pyFold f best l :: l₂
      ∧ (∀ x ∈ l₁, f x < f (pyFold f best l))
      ∧ (∀ x ∈ l₂, f x ≤ f (pyFold f best l)) := by
  intro l
  induction l with
  | nil =>
    intro best
    exact ⟨[], [], rfl, by simp, by simp⟩
  | cons x xs ih =>
    intro best
    by_cases hc : f best < f x
    · have hrw : pyFold f best (x :: xs) = pyFold f x xs := by
        simp [pyFold, hc]
      rw [hrw]
      obtain ⟨l₁, l₂, heq, h₁, h₂⟩ := ih x
      have hxr : f x ≤ f (pyFold f x xs) := by
        rcases l₁ with _ | ⟨z, l₁t⟩
        · simp only [List.nil_append] at heq
          injection heq with h1 _
          rw [← h1]
        · simp only [List.cons_append] at heq
          injection heq with h1 _
          have hfx : f x = f z := by rw [h1]
          rw [hfx]
          exact le_of_lt (h₁ z (List.mem_cons_self z l₁t))
      refine ⟨best :: l₁, l₂, ?_, ?_, h₂⟩
      · rw [List.cons_append, ← heq]
      · intro y hy
        rcases List.mem_cons.mp hy with rfl | hyl
        · exact lt_of_lt_of_le hc hxr
        · exact h₁ y hyl
    · have hrw : pyFold f best (x :: xs) = pyFold f best xs := by
        simp [pyFold, hc]
      rw [hrw]
      have hxb : f x ≤ f best := le_of_not_lt hc
      obtain ⟨l₁, l₂, heq, h₁, h₂⟩ := ih best
      rcases l₁ with _ | ⟨z, l₁t⟩
      · simp only [List.nil_append] at heq
        injection heq with h1 h2
        refine ⟨[], x :: xs, ?_, by simp, ?_⟩
        · simp only [List.nil_append]
          rw [← h1]
        · intro y hy
          rcases List.mem_cons.mp hy with rfl | hyxs
          · rw [← h1]; exact hxb
          · rw [h2] at hyxs
            exact h₂ y hyxs
      · simp only [List.cons_append] at heq
        injection heq with h1 h2
        refine ⟨best :: x :: l₁t, l₂, ?_, ?_, h₂⟩
        · simp only [List.cons_append]
          rw [← h2]
        · intro y hy
          have hfb : f best = f z := by rw [h1]
          rcases List.mem_cons.mp hy with rfl | hy2
          · rw [hfb]
            exact h₁ z (List.mem_cons_self z l₁t)
          · rcases List.mem_cons.mp hy2 with rfl | hy3
            · exact lt_of_le_of_lt hxb (by rw [hfb]; exact h₁ z (List.mem_cons_self z l₁t))
            · exact h₁ y (List.mem_cons_of_mem z hy3)

theorem popVariance_nonneg (l : List ℚ) : 0 ≤ popVariance l := by
  unfold popVariance
  apply div_nonneg _ (by positivity)
  apply List.sum_nonneg
  intro x hx
  simp only [List.mem_map] at hx
  obtain ⟨y, _, rfl⟩ := hx
  positivity

/-- C9: the local emotion summary computes the mode of observed emotion tags
(ties resolved in favour of the tag encountered first in the deduplicated
iteration order), the arithmetic mean of observed sentiments (0 when none),
the per-tag frequency map, and the population standard deviation of observed
sentiments (0 when none). -/
theorem analyze_conversation_emotions_spec (messages : List ChatMsg) :
    (msgEmotions messages = [] →
      (analyze_conversation_emotions messages).mainEmotion = none)
    ∧ (∀ e, (analyze_conversation_emotions messages).mainEmotion = some e →
        e ∈ msgEmotions messages
        ∧ (∀ x ∈ msgEmotions messages,
            (msgEmotions messages).count x ≤ (msgEmotions messages).count e)
        ∧ ∃ l₁ l₂, firstDedup (msgEmotions messages) = l₁ ++ e :: l₂
            ∧ ∀ x ∈ l₁, (msgEmotions messages).count x < (msgEmotions messages).count e)
    ∧ (analyze_conversation_emotions messages).avgSentiment
        = (msgSentiments messages).sum / ((msgSentiments messages).length : ℚ)
    ∧ (msgSentiments messages = [] →
        (analyze_conversation_emotions messages).avgSentiment = 0)
    ∧ (∀ e n, (e, n) ∈ (analyze_conversation_emotions messages).emotionCounts
        ↔ e ∈ msgEmotions messages ∧ n = (msgEmotions messages).count e)
    ∧ (msgSentiments messages = [] →
        (analyze_conversation_emotions messages).sentimentStd = 0)
    ∧ (msgSentiments messages ≠ [] →
        0 ≤ (analyze_conversation_emotions messages).sentimentStd
        ∧ (analyze_conversation_emotions messages).sentimentStd ^ 2
            = ((((msgSentiments messages).map fun x =>
                  (x - (msgSentiments messages).sum
                    / ((msgSentiments messages).length : ℚ)) ^ 2).sum
                / ((msgSentiments messages).length : ℚ) : ℚ) : ℝ)) := by
  refine ⟨?_, ?_, ?_, ?_, ?_, ?_, ?_⟩
  · intro h
    simp [analyze_conversation_emotions, h]
  · intro e he
    by_cases hobs : msgEmotions messages = []
    · simp [analyze_conversation_emotions, hobs] at he
    · obtain ⟨o, os, hdecomp⟩ := List.exists_cons_of_ne_nil hobs
      rw [hdecomp]
      have hfd : firstDedup (o :: os) = o :: firstDedup (os.filter fun z => z != o) := by
        simp only [firstDedup]
      simp only [analyze_conversation_emotions, hdecomp, List.isEmpty_cons, Bool.false_eq_true,
        if_false, hfd, pyMaxKey, Option.some.injEq] at he
      subst he
      obtain ⟨l₁, l₂, hsplit, hlt, hle⟩ :=
        pyFold_split (fun x => (o :: os).count x) (firstDedup (os.filter fun z => z != o)) o
      rw [← hfd] at hsplit
      have hrmem :
          pyFold (fun x => (o :: os).count x) o (firstDedup (os.filter fun z => z != o))
            ∈ o :: os := by
        have h1 := List.mem_append_right l₁
          (List.mem_cons_self
            (pyFold (fun x => (o :: os).count x) o (firstDedup (os.filter fun z => z != o))) l₂)
        rw [← hsplit] at h1
        exact (mem_firstDedup _ _).mp h1
      refine ⟨hrmem, ?_, l₁, l₂, hsplit, hlt⟩
      intro x hx
      have hx2 : x ∈ firstDedup (o :: os) := (mem_firstDedup _ _).mpr hx
      rw [hsplit] at hx2
      rcases List.mem_append.mp hx2 with hx3 | hx3
      · exact le_of_lt (hlt x hx3)
      · rcases List.mem_cons.mp hx3 with rfl | hx4
        · exact le_rfl
        · exact hle x hx4
  · by_cases hs : msgSentiments messages = []
    · simp [analyze_conversation_emotions, hs, listMean]
    · obtain ⟨s, ss, hsd⟩ := List.exists_cons_of_ne_nil hs
      rw [hsd]
      simp [analyze_conversation_emotions, hsd, listMean]
  · intro hs
    simp [analyze_conversation_emotions, hs]
  · intro e n
    simp only [analyze_conversation_emotions, List.mem_map, Prod.mk.injEq]
    constructor
    · rintro ⟨a, ha, rfl, rfl⟩
      exact ⟨(mem_firstDedup _ _).mp ha, rfl⟩
    · rintro ⟨he, rfl⟩
      exact ⟨e, (mem_firstDedup _ _).mpr he, rfl, rfl⟩
  · intro hs
    simp [analyze_conversation_emotions, hs]
  · intro hs
    obtain ⟨s, ss, hsd⟩ := List.exists_cons_of_ne_nil hs
    rw [hsd]
    have hstd : (analyze_conversation_emotions messages).sentimentStd
        = Real.sqrt ((popVariance (s :: ss) : ℚ) : ℝ) := by
      simp [analyze_conversation_emotions, hsd]
    refine ⟨by rw [hstd]; exact Real.sqrt_nonneg _, ?_⟩
    rw [hstd, Real.sq_sqrt (by exact_mod_cast popVariance_nonneg (s :: ss))]
    rfl

/-- Witness for C9: a window with "happy" twice and "sad" once has main
emotion "happy" with maximal count, and the degenerate clauses hold on the
empty window. -/
theorem analyze_conversation_emotions_spec_witness :
    ((analyze_conversation_emotions msgsEx).mainEmotion = some "happy"
      ∧ ∀ x ∈ msgEmotions msgsEx,
          (msgEmotions msgsEx).count x ≤ (msgEmotions msgsEx).count "happy")
    ∧ (analyze_conversation_emotions []).mainEmotion = none
    ∧ (analyze_conversation_emotions []).sentimentStd = 0
    ∧ 0 ≤ (analyze_conversation_emotions msgsEx).sentimentStd := by
  have hm : (analyze_conversation_emotions msgsEx).mainEmotion = some "happy" := by
    simp [analyze_conversation_emotions, msgsEx, msgEmotions, firstDedup, pyMaxKey, pyFold]
  refine ⟨⟨hm, ((analyze_conversation_emotions_spec msgsEx).2.1 "happy" hm).2.1⟩, ?_, ?_, ?_⟩
  · exact (analyze_conversation_emotions_spec []).1 rfl
  · exact (analyze_conversation_emotions_spec []).2.2.2.2.2.1 rfl
  · exact ((analyze_conversation_emotions_spec msgsEx).2.2.2.2.2.2
      (by simp [msgsEx, msgSentiments])).1
